import Mathlib

/-!
Shallow embedding of the ritematica palette-coded region codec
(`src/region.rs`, `src/structure.rs`, `src/parsing.rs`,
`src/resource_location.rs`, `src/file.rs`) together with proofs about it.

Machine integers are modelled as `Nat` bit patterns with explicit
`% 2 ^ 64` / `% 2 ^ 32` truncation at the places where the Rust code casts.
The signed `i64` storage of the packed words is modelled by its unsigned
64-bit pattern; `asr64` reproduces Rust's arithmetic shift-right on `i64`
and `i64_not` the 64-bit bitwise complement.  The `assert!` bounds check of
`Region::get_3d_index` and the slice-index panics are modelled as `Except`
errors (`RegionError.outOfBounds` for the assert, `indexOutOfRange` for a
palette access out of range).
-/

/-- Bit pattern (unsigned view) of Rust `i64 >> k` (arithmetic shift right, `k < 64`):
for a negative word (bit 63 of the pattern set) the vacated high bits fill with ones. -/
def asr64 (w k : Nat) : Nat :=
  if w < 2 ^ 63 then w >>> k else (w >>> k) ||| (2 ^ 64 - 2 ^ (64 - k))

/-- Bit pattern of Rust `!x` on `i64`: the 64-bit bitwise complement. -/
def i64_not (w : Nat) : Nat := w ^^^ (2 ^ 64 - 1)

/-- Fuel-driven ceiling base-2 logarithm (structural recursion so that proofs by
`decide` can evaluate it); with fuel ≥ n it equals `Nat.clog 2 n` (proved below).
It is the exponent computed by `usize::next_power_of_two`. -/
def clog2F (fuel n : Nat) : Nat :=
  match fuel with
  | 0 => 0
  | fuel + 1 => if n ≤ 1 then 0 else clog2F fuel ((n + 1) / 2) + 1

/-- Rust `usize::next_power_of_two`: the smallest power of two ≥ `n` (`1` for `n = 0`). -/
def next_power_of_two (n : Nat) : Nat := 2 ^ clog2F n n

/-- Fuel-driven count of trailing zero bits (64 for input 0, as on a 64-bit `usize`). -/
def trailing_zeros_fuel (fuel n : Nat) : Nat :=
  match fuel with
  | 0 => 0
  | fuel + 1 =>
    if n = 0 then 64 else if n % 2 = 1 then 0 else trailing_zeros_fuel fuel (n / 2) + 1

/-- Rust `usize::trailing_zeros` (the fuel `n + 1` always suffices). -/
def trailing_zeros (n : Nat) : Nat := trailing_zeros_fuel (n + 1) n

/-- Rust `usize::is_power_of_two` (`n.count_ones() == 1`), via the standard
`n & (n - 1) == 0` characterisation of powers of two. -/
def is_power_of_two (n : Nat) : Bool := n != 0 && (n &&& (n - 1)) == 0

/-- `BlockState` (`src/structure.rs`): a name and a string-to-string property map,
modelled as an association list; equality is structural, matching the derived
`PartialEq` used by the palette search. -/
structure BlockState where
  name : String
  properties : List (String × String)
deriving DecidableEq

/-- `Coordinates` (`src/structure.rs`): a signed 32-bit triple, modelled over `Int`. -/
structure Coordinates where
  x : Int
  y : Int
  z : Int
deriving DecidableEq

/-- `Region` (`src/structure.rs`): the fields the codec touches.  The opaque
entity / tile-entity / pending-tick payloads are carried verbatim by the code
and never inspected, so they are omitted from the model. -/
structure Region where
  position : Coordinates
  size : Coordinates
  block_state_palette : List BlockState
  block_states : List Nat
deriving DecidableEq

/-- Failure kinds of the in-memory region operations: `outOfBounds` models the
`assert!` in `Region::get_3d_index`, `indexOutOfRange` a palette slice-index panic. -/
inductive RegionError where
  | outOfBounds
  | indexOutOfRange
deriving DecidableEq

/-- Decidable equality for `Except` results, so concrete runs can be checked
by `decide`. -/
instance {ε α : Type _} [DecidableEq ε] [DecidableEq α] : DecidableEq (Except ε α)
  | .error e, .error f =>
    if h : e = f then isTrue (by rw [h]) else isFalse (fun hc => h (Except.error.inj hc))
  | .error _, .ok _ => isFalse (fun hc => Except.noConfusion hc)
  | .ok _, .error _ => isFalse (fun hc => Except.noConfusion hc)
  | .ok x, .ok y =>
    if h : x = y then isTrue (by rw [h]) else isFalse (fun hc => h (Except.ok.inj hc))

/-- The bounds condition asserted by `Region::get_3d_index` (and by
`parsing.rs`'s `Region::get_index`): every component in `[0, |size.c|)`. -/
def in_bounds (size c : Coordinates) : Prop :=
  0 ≤ c.x ∧ c.x < (size.x.natAbs : Int) ∧ 0 ≤ c.y ∧ c.y < (size.y.natAbs : Int) ∧
    0 ≤ c.z ∧ c.z < (size.z.natAbs : Int)

instance (size c : Coordinates) : Decidable (in_bounds size c) := by
  unfold in_bounds; infer_instance

namespace Region

/-- `const BIT_TO_LONG_SHIFT: u8 = 6` (`src/region.rs`). -/
def BIT_TO_LONG_SHIFT : Nat := 6

/-- `Region::get_3d_index` (`src/region.rs`): asserts bounds, then
`y * (|size.x| * |size.z|) + z * |size.x| + x`. -/
def get_3d_index (r : Region) (coords : Coordinates) : Except RegionError Nat :=
  if in_bounds r.size coords then
    .ok (coords.y.toNat * (r.size.x.natAbs * r.size.z.natAbs) +
      coords.z.toNat * r.size.x.natAbs + coords.x.toNat)
  else
    .error .outOfBounds

/-- `Region::calc_required_bits` (`src/region.rs`):
`palette.len().next_power_of_two().trailing_zeros().max(2)`. -/
def calc_required_bits (palette : List BlockState) : Nat :=
  Nat.max (trailing_zeros (next_power_of_two palette.length)) 2

/-- `Region::get_palette_index` (`src/region.rs`).  The Rust shifts act on `i64`
(arithmetic shift-right, modelled by `asr64`) and are cast `as u32` (the
`% 2 ^ 32`) before the `u32` mask is applied. -/
def get_palette_index (block_states : List Nat) (block_index required_bits bitmask : Nat) :
    Nat :=
  let bit_position := block_index * required_bits
  let word_index := bit_position >>> BIT_TO_LONG_SHIFT
  let end_word_index := ((block_index + 1) * required_bits - 1) >>> BIT_TO_LONG_SHIFT
  let index_in_word := bit_position ^^^ (word_index <<< BIT_TO_LONG_SHIFT)
  if word_index = end_word_index then
    (asr64 (block_states.getD word_index 0) index_in_word % 2 ^ 32) &&& bitmask
  else
    let first_bits := 64 - index_in_word
    ((asr64 (block_states.getD word_index 0) index_in_word % 2 ^ 32) &&& bitmask) |||
      ((((block_states.getD end_word_index 0) <<< first_bits) % 2 ^ 64 % 2 ^ 32) &&& bitmask)

/-- `Region::set_block_index` (`src/region.rs`): the fixed-width write of a
palette index into the packed array, including the straddling-word case. -/
def set_block_index (block_states : List Nat) (block_index value required_bits bitmask : Nat) :
    List Nat :=
  let bit_position := block_index * required_bits
  let word_index := bit_position >>> BIT_TO_LONG_SHIFT
  let end_word_index := ((block_index + 1) * required_bits - 1) >>> BIT_TO_LONG_SHIFT
  let index_in_word := bit_position ^^^ (word_index <<< BIT_TO_LONG_SHIFT)
  let updated := block_states.set word_index
    (((block_states.getD word_index 0) &&& i64_not ((bitmask <<< index_in_word) % 2 ^ 64)) |||
      (((value &&& bitmask) <<< index_in_word) % 2 ^ 64))
  if word_index ≠ end_word_index then
    let bits_written := 64 - index_in_word
    let bits_to_write := required_bits - bits_written
    updated.set end_word_index
      (((updated.getD end_word_index 0) &&&
          i64_not ((1 <<< bits_to_write) % 2 ^ 64 - 1)) |||
        ((value &&& bitmask) >>> bits_written))
  else
    updated

/-- `Region::resize_block_states` (`src/region.rs`): allocate `⌈V·B_new/64⌉`
zeroed words and re-pack every cell, reading at the old width and writing at
the new width. -/
def resize_block_states (r : Region)
    (old_required_bits old_bitmask new_required_bits new_bitmask : Nat) : Region :=
  let volume := r.size.x.natAbs * r.size.y.natAbs * r.size.z.natAbs
  let required_bits_per_block := (volume * new_required_bits + 63) >>> BIT_TO_LONG_SHIFT
  let new_blockstates :=
    (List.range volume).foldl
      (fun acc i =>
        set_block_index acc i
          (get_palette_index r.block_states i old_required_bits old_bitmask)
          new_required_bits new_bitmask)
      (List.replicate required_bits_per_block 0)
  { r with block_states := new_blockstates }

/-- `Region::get_block` (`src/region.rs`). -/
def get_block (r : Region) (position : Coordinates) : Except RegionError BlockState :=
  match get_3d_index r position with
  | .error e => .error e
  | .ok index =>
    let required_bits := calc_required_bits r.block_state_palette
    let mask := (1 <<< required_bits) - 1
    let palette_index := get_palette_index r.block_states index required_bits mask
    match r.block_state_palette.get? palette_index with
    | some b => .ok b
    | none => .error .indexOutOfRange

/-- `Region::set_block` (`src/region.rs`): linear palette search; on a miss the
new entry takes index `|palette|`, widening first when that index is a power of
two ≥ 4; finally the fixed-width write at the current width. -/
def set_block (r : Region) (position : Coordinates) (block : BlockState) :
    Except RegionError Region :=
  match get_3d_index r position with
  | .error e => .error e
  | .ok index =>
    let bits := calc_required_bits r.block_state_palette
    let mask := (1 <<< bits) - 1
    match r.block_state_palette.findIdx? (fun b => decide (b = block)) with
    | some palette_index =>
      .ok { r with
            block_states := set_block_index r.block_states index palette_index bits mask }
    | none =>
      let idx := r.block_state_palette.length
      if is_power_of_two idx ∧ 4 ≤ idx then
        let new_bits := bits + 1
        let new_mask := (1 <<< new_bits) - 1
        let resized := resize_block_states r bits mask new_bits new_mask
        .ok { resized with
              block_state_palette := resized.block_state_palette ++ [block],
              block_states :=
                set_block_index resized.block_states index idx new_bits new_mask }
      else
        .ok { r with
              block_state_palette := r.block_state_palette ++ [block],
              block_states := set_block_index r.block_states index idx bits mask }

/-- The region volume `V = |size.x| · |size.y| · |size.z|`. -/
def volume (r : Region) : Nat :=
  r.size.x.natAbs * r.size.y.natAbs * r.size.z.natAbs

/-- Region well-formedness: the packed array holds exactly `⌈V·B/64⌉` 64-bit
words, where `B = calc_required_bits palette`. -/
def WF (r : Region) : Prop :=
  r.block_states.length =
    (volume r * calc_required_bits r.block_state_palette + 63) >>> BIT_TO_LONG_SHIFT

instance (r : Region) : Decidable (WF r) := by
  unfold WF; infer_instance

/-- Full enumeration of region coordinates in y-major, then z, then x order
(the linear layout order of `get_3d_index`). -/
def coord_enum (r : Region) : List Coordinates :=
  (List.range r.size.y.natAbs).flatMap fun y =>
    (List.range r.size.z.natAbs).flatMap fun z =>
      (List.range r.size.x.natAbs).map fun x =>
        ⟨(x : Int), (y : Int), (z : Int)⟩

/-- Whether the cell at `c` holds a BlockState matching the pattern. -/
def cell_matches (r : Region) (pattern : BlockState → Bool) (c : Coordinates) : Bool :=
  match get_block r c with
  | .ok b => pattern b
  | .error _ => false

/-- Modelled from the spec: `Region::find_positions(pattern)` is absent from
`src/` (only the test-only caller `find_block_positions` in `src/lib.rs`
remains).  Spec §4.C.7: enumerate `(x, y, z)` in the y → z → x order of
§4.C.1 and yield each coordinate whose cell's BlockState satisfies
`pattern.matches`, as a finite one-shot iteration. -/
def find_positions (r : Region) (pattern : BlockState → Bool) : List Coordinates :=
  (List.range r.size.y.natAbs).flatMap fun y =>
    (List.range r.size.z.natAbs).flatMap fun z =>
      (List.range r.size.x.natAbs).filterMap fun x =>
        match get_block r ⟨(x : Int), (y : Int), (z : Int)⟩ with
        | .ok b => if pattern b then some ⟨(x : Int), (y : Int), (z : Int)⟩ else none
        | .error _ => none

end Region

namespace Parsing

/-- `Region` as declared in `src/parsing.rs` (the second, unexported codec):
same payload, with the packed array stored before the palette. -/
structure Region where
  position : Coordinates
  size : Coordinates
  block_states : List Nat
  block_state_palette : List BlockState
deriving DecidableEq

/-- `const BIT_TO_LONG_SHIFT: u8 = 6` (`src/parsing.rs`). -/
def BIT_TO_LONG_SHIFT : Nat := 6

/-- `Region::get_index` (`src/parsing.rs`). -/
def Region.get_index (r : Region) (coords : Coordinates) : Except RegionError Nat :=
  if in_bounds r.size coords then
    .ok (coords.y.toNat * (r.size.x.natAbs * r.size.z.natAbs) +
      coords.z.toNat * r.size.x.natAbs + coords.x.toNat)
  else
    .error .outOfBounds

/-- `Region::get_block_idx` (`src/parsing.rs`). -/
def Region.get_block_idx (block_states : List Nat) (index bits mask : Nat) : Nat :=
  let bit_index := index * bits
  let word_index := bit_index >>> BIT_TO_LONG_SHIFT
  let end_word_index := ((index + 1) * bits - 1) >>> BIT_TO_LONG_SHIFT
  let index_in_word := bit_index ^^^ (word_index <<< BIT_TO_LONG_SHIFT)
  if word_index = end_word_index then
    (asr64 (block_states.getD word_index 0) index_in_word % 2 ^ 32) &&& mask
  else
    let first_bits := 64 - index_in_word
    ((asr64 (block_states.getD word_index 0) index_in_word % 2 ^ 32) &&& mask) |||
      ((((block_states.getD end_word_index 0) <<< first_bits) % 2 ^ 64 % 2 ^ 32) &&& mask)

/-- `Region::set_block_idx` (`src/parsing.rs`). -/
def Region.set_block_idx (block_states : List Nat) (index value bits mask : Nat) :
    List Nat :=
  let bit_index := index * bits
  let word_index := bit_index >>> BIT_TO_LONG_SHIFT
  let end_word_index := ((index + 1) * bits - 1) >>> BIT_TO_LONG_SHIFT
  let index_in_word := bit_index ^^^ (word_index <<< BIT_TO_LONG_SHIFT)
  let updated := block_states.set word_index
    (((block_states.getD word_index 0) &&& i64_not ((mask <<< index_in_word) % 2 ^ 64)) |||
      (((value &&& mask) <<< index_in_word) % 2 ^ 64))
  if word_index ≠ end_word_index then
    let bits_written := 64 - index_in_word
    let bits_to_write := bits - bits_written
    updated.set end_word_index
      (((updated.getD end_word_index 0) &&&
          i64_not ((1 <<< bits_to_write) % 2 ^ 64 - 1)) |||
        ((value &&& mask) >>> bits_written))
  else
    updated

/-- `Region::resize` (`src/parsing.rs`). -/
def Region.resize (r : Region) (old_bits old_mask new_bits new_mask : Nat) : Region :=
  let volume := r.size.x.natAbs * r.size.y.natAbs * r.size.z.natAbs
  let required := (volume * new_bits + 63) >>> BIT_TO_LONG_SHIFT
  let new_states :=
    (List.range volume).foldl
      (fun acc i =>
        Region.set_block_idx acc i
          (Region.get_block_idx r.block_states i old_bits old_mask)
          new_bits new_mask)
      (List.replicate required 0)
  { r with block_states := new_states }

/-- `Region::get_block` (`src/parsing.rs`); the bits-per-cell computation is
inlined in the source, exactly `palette.len().next_power_of_two().trailing_zeros().max(2)`. -/
def Region.get_block (r : Region) (position : Coordinates) : Except RegionError BlockState :=
  match Region.get_index r position with
  | .error e => .error e
  | .ok index =>
    let bits := Nat.max (trailing_zeros (next_power_of_two r.block_state_palette.length)) 2
    let mask := (1 <<< bits) - 1
    let palette_index := Region.get_block_idx r.block_states index bits mask
    match r.block_state_palette.get? palette_index with
    | some b => .ok b
    | none => .error .indexOutOfRange

/-- `Region::set_block` (`src/parsing.rs`). -/
def Region.set_block (r : Region) (position : Coordinates) (block : BlockState) :
    Except RegionError Region :=
  match Region.get_index r position with
  | .error e => .error e
  | .ok index =>
    let bits := Nat.max (trailing_zeros (next_power_of_two r.block_state_palette.length)) 2
    let mask := (1 <<< bits) - 1
    match r.block_state_palette.findIdx? (fun b => decide (b = block)) with
    | some palette_index =>
      .ok { r with
            block_states := Region.set_block_idx r.block_states index palette_index bits mask }
    | none =>
      let idx := r.block_state_palette.length
      if is_power_of_two idx ∧ 4 ≤ idx then
        let new_bits := bits + 1
        let new_mask := (1 <<< new_bits) - 1
        let resized := Region.resize r bits mask new_bits new_mask
        .ok { resized with
              block_state_palette := resized.block_state_palette ++ [block],
              block_states :=
                Region.set_block_idx resized.block_states index idx new_bits new_mask }
      else
        .ok { r with
              block_state_palette := r.block_state_palette ++ [block],
              block_states := Region.set_block_idx r.block_states index idx bits mask }

end Parsing

/-- `ParseError` (`src/error.rs`): the unit error returned by resource-id parsing. -/
inductive ParseError where
  | parseError
deriving DecidableEq

/-- `ResourceLocation` (`src/resource_location.rs`); the `namespace` field is
renamed `namespace_` because `namespace` is a Lean keyword.  Both components
are modelled as character lists. -/
structure ResourceLocation where
  namespace_ : List Char
  path : List Char
deriving DecidableEq

namespace ResourceLocation

/-- Rust `char::is_ascii_alphanumeric`. -/
def is_ascii_alphanumeric (c : Char) : Bool :=
  ('A' ≤ c && c ≤ 'Z') || ('a' ≤ c && c ≤ 'z') || ('0' ≤ c && c ≤ '9')

/-- `ResourceLocation::is_valid_namespace` (`src/resource_location.rs`):
nonempty, characters in `[A-Za-z0-9_.-]`. -/
def is_valid_namespace (namespace_ : List Char) : Bool :=
  if namespace_.isEmpty then false
  else namespace_.all fun c =>
    is_ascii_alphanumeric c || c == '_' || c == '-' || c == '.'

/-- `ResourceLocation::is_valid_path` (`src/resource_location.rs`):
nonempty, characters in `[A-Za-z0-9_.-]` plus the slash. -/
def is_valid_path (path : List Char) : Bool :=
  if path.isEmpty then false
  else path.all fun c =>
    is_ascii_alphanumeric c || c == '_' || c == '-' || c == '/' || c == '.'

/-- Rust `str::splitn(2, ':')`: the part before the first `':'`, and the rest
after it when a `':'` occurs. -/
def splitn2 : List Char → List Char × Option (List Char)
  | [] => ([], none)
  | c :: rest =>
    if c = ':' then ([], some rest)
    else
      let p := splitn2 rest
      (c :: p.1, p.2)

/-- `ResourceLocation::parse` (`src/resource_location.rs`): split at the first
`':'`; with a second part validate namespace and path, otherwise default the
namespace to `minecraft` and validate the whole input as path. -/
def parse (resource : List Char) : Except ParseError ResourceLocation :=
  let p := splitn2 resource
  match p.2 with
  | some second =>
    if ¬ is_valid_namespace p.1 then .error .parseError
    else if ¬ is_valid_path second then .error .parseError
    else .ok ⟨p.1, second⟩
  | none =>
    if ¬ is_valid_path p.1 then .error .parseError
    else .ok ⟨"minecraft".toList, p.1⟩

end ResourceLocation

/-- Failure kind of the pure extension gate in `LitematicaFile::write`
(`src/file.rs`); the code reports it as an `Io(InvalidInput)` error, the
spec's abstract taxonomy calls the kind `InvalidPath`. -/
inductive FileError where
  | invalidPath
deriving DecidableEq

namespace LitematicaFile

/-- Splits a file name at its last `'.'`: `some (before, after)` when a dot
occurs, `none` otherwise. -/
def ext_split : List Char → Option (List Char × List Char)
  | [] => none
  | c :: rest =>
    match ext_split rest with
    | some p => some (c :: p.1, p.2)
    | none => if c = '.' then some ([], rest) else none

/-- Rust `Path::extension` on a bare file name: the portion after the last
`'.'`, except that a name with no dot, or a leading-dot name with no further
dot, has no extension (`"foo"` ↦ `none`, `".gitignore"` ↦ `none`,
`"a.tar.gz"` ↦ `some "gz"`, `"foo."` ↦ `some ""`). -/
def extension (file_name : List Char) : Option (List Char) :=
  match ext_split file_name with
  | some p => if p.1 = [] then none else some p.2
  | none => none

/-- The pure validation prefix of `LitematicaFile::write` (`src/file.rs`):
`if let Some(ext) = path.extension() { if ext != "litematic" { return Err(..) } }`.
The subsequent file creation and NBT serialisation are I/O and outside the model. -/
def write_ext_check (path : List Char) : Except FileError Unit :=
  match extension path with
  | some ext => if ext ≠ "litematic".toList then .error .invalidPath else .ok ()
  | none => .ok ()

/-- The (empty) validation prefix of `LitematicaFile::read` (`src/file.rs`):
`read` opens the file directly and performs no path validation at all. -/
def read_ext_check (_path : List Char) : Except FileError Unit := .ok ()

end LitematicaFile

/-!
Concrete fixtures used by the code-bug evaluations and the witnesses.
-/

/-- Distinct block states for concrete regions. -/
def b0 : BlockState := ⟨"b0", []⟩

def b1 : BlockState := ⟨"b1", []⟩

def b2 : BlockState := ⟨"b2", []⟩

def b3 : BlockState := ⟨"b3", []⟩

def b4 : BlockState := ⟨"b4", []⟩

def b5 : BlockState := ⟨"b5", []⟩

def b6 : BlockState := ⟨"b6", []⟩

def b7 : BlockState := ⟨"b7", []⟩

def b8 : BlockState := ⟨"b8", []⟩

def pal5 : List BlockState := [b0, b1, b2, b3, b4]

def pal8 : List BlockState := [b0, b1, b2, b3, b4, b5, b6, b7]

def pal4 : List BlockState := [b0, b1, b2, b3]

def origin : Coordinates := ⟨0, 0, 0⟩

def c21 : Coordinates := ⟨21, 0, 0⟩

/-- Well-formed region, size (22,1,1), five palette entries (3 bits per cell),
all cells holding palette index 0: cell 21's field occupies bits 63..65,
straddling the two words. -/
def R1 : Region := ⟨origin, ⟨22, 1, 1⟩, pal5, [0, 0]⟩

/-- Well-formed region, size (22,1,1), eight palette entries (3 bits per cell),
cell 21 holding palette index 1 (so bit 63 of word 0 is set). -/
def R2 : Region := ⟨origin, ⟨22, 1, 1⟩, pal8, [2 ^ 63, 0]⟩

/-- Well-formed region, size (22,1,1), four palette entries (2 bits per cell),
cell 21 holding palette index 1 (bits 42..43 of the single word). -/
def R3 : Region := ⟨origin, ⟨22, 1, 1⟩, pal4, [2 ^ 42]⟩

/-- Minimal region of the spec's seed scenario: size (1,1,1), palette `[b0]`. -/
def R0 : Region := ⟨origin, ⟨1, 1, 1⟩, [b0], [0]⟩

/-- Region of the spec's search scenario: size (3,2,3), all cells `b0` except
cell (2,1,2) (linear index 17, bits 34..35) holding `b1`. -/
def R4 : Region := ⟨origin, ⟨3, 2, 3⟩, [b0, b1], [2 ^ 34]⟩

/-!
Theorems.
-/

/-- C1: the claim states that for every well-formed region and in-bounds cell,
`get_block` after `set_block(c, s)` returns `s`.  The code violates it: on the
well-formed region `R1` (22 cells, 5 palette entries, 3 bits per cell) setting
cell 21 (whose 3-bit field occupies bits 63..65, straddling the two words) to
palette entry `b1` stores the field correctly, but reading it back
sign-extends word 0 through Rust's arithmetic `i64 >>` (the spec mandates
unsigned shifts), yielding palette index 7 and an out-of-range palette access
instead of `b1`. -/
theorem set_then_get_straddle_code_bug :
    (Region.set_block R1 c21 b1).map (fun r => Region.get_block r c21) =
      .ok (.error RegionError.indexOutOfRange) := by decide

/-- C2: the claim states that the widening pass re-packs every cell so that it
holds the same palette index at the new width as at the old width.  On the
well-formed region `R2` (22 cells, 8 palette entries, 3 bits per cell, cell 21
holding index 1 with bit 63 of word 0 set), inserting a ninth distinct state
widens 3 → 4 bits, but the re-pack reads cell 21 through the sign-extending
shift as 7 and writes 7 at the new width; the third conjunct computes the
actual stored 3-bit field of cell 21 with unsigned shifts (spec §4.C.3) and
shows it is 1. -/
theorem widening_repack_code_bug :
    (Region.set_block R2 origin b8).map
        (fun r => Region.get_palette_index r.block_states 21 4 15) = .ok 7 ∧
      Region.get_palette_index R2.block_states 21 3 7 = 7 ∧
      ((((R2.block_states.getD 0 0) >>> 63) &&& 7) |||
          (((R2.block_states.getD 1 0) <<< 1) &&& 7)) = 1 :=
  ⟨by decide, by decide, by decide⟩

/-- C3: the claim states that `set_block(c₁, s₁)` never changes the BlockState
observed at a different cell `c₂`, including across palette widening.  On the
well-formed region `R3` (22 cells, 4 palette entries, 2 bits per cell, cell 21
holding index 1), `get_block` at cell 21 first returns `b1`; setting cell 0 to
a fresh fifth state triggers widening 2 → 3 bits, after which cell 21's new
field straddles the words with bit 63 set, so `get_block` at the untouched
cell 21 now sign-extends to palette index 7 and fails with an out-of-range
palette access instead of returning `b1`. -/
theorem frame_widening_code_bug :
    Region.get_block R3 c21 = .ok b1 ∧
      (Region.set_block R3 origin b4).map (fun r => Region.get_block r c21) =
        .ok (.error RegionError.indexOutOfRange) :=
  ⟨by decide, by decide⟩

theorem getD_set_self_of_lt {α : Type _} (l : List α) (i : Nat) (a d : α) (h : i < l.length) :
    (l.set i a).getD i d = a := by
  rw [List.getD_eq_getElem?_getD, List.getElem?_set_self', List.getElem?_eq_getElem h]
  rfl

theorem getD_set_ne {α : Type _} (l : List α) {i j : Nat} (a d : α) (h : i ≠ j) :
    (l.set i a).getD j d = l.getD j d := by
  rw [List.getD_eq_getElem?_getD, List.getElem?_set_ne h, List.getD_eq_getElem?_getD]

theorem xor_shift_mod (p : Nat) : p ^^^ ((p >>> 6) <<< 6) = p % 64 := by
  apply Nat.eq_of_testBit_eq
  intro i
  rw [Nat.testBit_xor, Nat.testBit_shiftLeft, Nat.testBit_shiftRight,
    show (64 : Nat) = 2 ^ 6 from rfl, Nat.testBit_mod_two_pow]
  rcases lt_or_ge i 6 with h | h
  · simp [h, Nat.not_le.mpr h]
  · simp only [ge_iff_le, h, decide_True, Bool.true_and, Nat.add_sub_cancel' h,
      Bool.xor_self]
    simp [Nat.not_lt.mpr h]

/-- C5: a fixed-width cell write whose `B`-bit field straddles two adjacent
64-bit words modifies in the high word only the low `B - (64 - shift_lo)`
bits: the mask applied to the high word (`(1 << bits_to_write) - 1`) is sized
to exactly the remaining bits, so every bit of the high word at position
`bits_to_write` or above is preserved by `set_block_index`. -/
theorem straddle_write_high_word_frame
    (ws : List Nat) (i v B t : Nat) (hB : 1 ≤ B)
    (hst : (i * B) >>> Region.BIT_TO_LONG_SHIFT ≠
      ((i + 1) * B - 1) >>> Region.BIT_TO_LONG_SHIFT)
    (hlen : ((i + 1) * B - 1) >>> Region.BIT_TO_LONG_SHIFT < ws.length)
    (ht64 : t < 64)
    (ht : B - (64 - (i * B) % 64) ≤ t) :
    Nat.testBit
        ((Region.set_block_index ws i v B ((1 <<< B) - 1)).getD
          (((i + 1) * B - 1) >>> Region.BIT_TO_LONG_SHIFT) 0) t =
      Nat.testBit (ws.getD (((i + 1) * B - 1) >>> Region.BIT_TO_LONG_SHIFT) 0) t := by
  simp only [Region.set_block_index, Region.BIT_TO_LONG_SHIFT, xor_shift_mod]
  simp only [Region.BIT_TO_LONG_SHIFT] at hst hlen
  rw [if_pos hst]
  rw [getD_set_self_of_lt _ _ _ _ (by simpa using hlen)]
  rw [getD_set_ne _ _ _ hst]
  have hst2 : i * B / 64 ≠ (i * B + (B - 1)) / 64 := by
    have heq : (i + 1) * B - 1 = i * B + (B - 1) := by
      rw [Nat.add_mul, Nat.one_mul]
      omega
    rw [Nat.shiftRight_eq_div_pow, Nat.shiftRight_eq_div_pow, heq] at hst
    exact hst
  have hbw : 64 - (i * B) % 64 < B := by
    revert hst2
    generalize i * B = a
    intro hst2
    omega
  set s := (i * B) % 64 with hs
  have hbtw64 : B - (64 - s) < 64 := lt_of_le_of_lt ht ht64
  simp only [Nat.one_shiftLeft]
  rw [Nat.mod_eq_of_lt (Nat.pow_lt_pow_right (by norm_num) hbtw64)]
  unfold i64_not
  rw [Nat.testBit_lor, Nat.testBit_land, Nat.testBit_xor,
    Nat.testBit_two_pow_sub_one, Nat.testBit_two_pow_sub_one]
  have h2 : ((v &&& (2 ^ B - 1)) >>> (64 - s)).testBit t = false := by
    apply Nat.testBit_lt_two_pow
    rw [Nat.shiftRight_eq_div_pow]
    apply Nat.div_lt_of_lt_mul
    calc v &&& (2 ^ B - 1) ≤ 2 ^ B - 1 := Nat.and_le_right
      _ < 2 ^ B := Nat.sub_lt (Nat.two_pow_pos B) (by norm_num)
      _ ≤ 2 ^ ((64 - s) + t) := Nat.pow_le_pow_right (by norm_num) (by omega)
      _ = 2 ^ (64 - s) * 2 ^ t := pow_add 2 (64 - s) t
  rw [h2]
  have h1 : ¬ (t < B - (64 - s)) := Nat.not_lt.mpr ht
  simp [h1, ht64]

theorem clog2F_eq (f n : Nat) (h : n ≤ f) : clog2F f n = Nat.clog 2 n := by
  induction f generalizing n with
  | zero =>
    have : n = 0 := Nat.le_zero.mp h
    subst this
    simp [clog2F, Nat.clog_of_right_le_one]
  | succ f ih =>
    by_cases hn : n ≤ 1
    · simp [clog2F, hn, Nat.clog_of_right_le_one hn]
    · push_neg at hn
      have h2 : 2 ≤ n := hn
      rw [show clog2F (f + 1) n = clog2F f ((n + 1) / 2) + 1 from by
        simp [clog2F, Nat.not_le.mpr hn]]
      rw [ih ((n + 1) / 2) (by omega)]
      rw [Nat.clog_of_two_le (by norm_num) h2]
      norm_num

theorem trailing_zeros_fuel_pow (f k : Nat) (h : k < f) :
    trailing_zeros_fuel f (2 ^ k) = k := by
  induction k generalizing f with
  | zero =>
    match f, h with
    | f + 1, _ => simp [trailing_zeros_fuel]
  | succ k ih =>
    match f, h with
    | f + 1, h =>
      have hne : (2 : Nat) ^ (k + 1) ≠ 0 := by positivity
      have hmod : 2 ^ (k + 1) % 2 = 0 := by
        rw [pow_succ, Nat.mul_mod_left]
      have hdiv : 2 ^ (k + 1) / 2 = 2 ^ k := by
        rw [pow_succ, Nat.mul_div_cancel _ (by norm_num)]
      simp only [trailing_zeros_fuel, hne, if_false, hmod, hdiv]
      rw [if_neg (by omega)]
      rw [ih f (by omega)]

theorem trailing_zeros_pow (k : Nat) : trailing_zeros (2 ^ k) = k :=
  trailing_zeros_fuel_pow _ _ (by
    have := Nat.lt_two_pow k
    omega)

theorem calc_required_bits_eq (palette : List BlockState) :
    Region.calc_required_bits palette = max 2 (Nat.clog 2 palette.length) := by
  unfold Region.calc_required_bits next_power_of_two
  rw [clog2F_eq _ _ le_rfl, trailing_zeros_pow]
  exact Nat.max_comm _ 2

theorem two_pow_and_pred (k : Nat) : 2 ^ k &&& (2 ^ k - 1) = 0 := by
  apply Nat.eq_of_testBit_eq
  intro i
  rw [Nat.testBit_land, Nat.testBit_two_pow, Nat.testBit_two_pow_sub_one, Nat.zero_testBit]
  by_cases h : k = i
  · subst h; simp
  · simp [h]

theorem is_power_of_two_iff (n : Nat) :
    is_power_of_two n = true ↔ ∃ k, n = 2 ^ k := by
  unfold is_power_of_two
  rw [Bool.and_eq_true, bne_iff_ne, beq_iff_eq]
  constructor
  · rintro ⟨hne, hand⟩
    refine ⟨n.log2, ?_⟩
    have hpos : 0 < n := Nat.pos_of_ne_zero hne
    have hle : 2 ^ n.log2 ≤ n := Nat.log2_self_le hne
    have hlt : n < 2 ^ (n.log2 + 1) := Nat.lt_log2_self
    by_contra hne2
    have hgt : 2 ^ n.log2 < n := lt_of_le_of_ne hle (fun h => hne2 h.symm)
    have hlt2 : n < 2 ^ n.log2 * 2 := by
      have := hlt
      rwa [pow_succ] at this
    have hb1 : n.testBit n.log2 = true := by
      rw [Nat.testBit, Nat.shiftRight_eq_div_pow]
      have : n / 2 ^ n.log2 = 1 := by
        apply Nat.div_eq_of_lt_le
        · simpa using hle
        · simp only [one_add_one_eq_two]; omega
      simp [this]
    have hb2 : (n - 1).testBit n.log2 = true := by
      rw [Nat.testBit, Nat.shiftRight_eq_div_pow]
      have : (n - 1) / 2 ^ n.log2 = 1 := by
        apply Nat.div_eq_of_lt_le
        · simp only [one_mul]; omega
        · simp only [one_add_one_eq_two]; omega
      simp [this]
    have : (n &&& (n - 1)).testBit n.log2 = true := by
      rw [Nat.testBit_land, hb1, hb2]; rfl
    rw [hand, Nat.zero_testBit] at this
    exact Bool.noConfusion this
  · rintro ⟨k, rfl⟩
    exact ⟨by positivity, two_pow_and_pred k⟩

theorem clog_two_two : Nat.clog 2 2 = 1 := by
  rw [Nat.clog_of_two_le (by norm_num) (by norm_num)]
  have h : (2 + 2 - 1) / 2 = 1 := by norm_num
  rw [h, Nat.clog_of_right_le_one (by norm_num) 2]

theorem clog_two_four : Nat.clog 2 4 = 2 := by
  rw [Nat.clog_of_two_le (by norm_num) (by norm_num)]
  have h : (4 + 2 - 1) / 2 = 2 := by norm_num
  rw [h, clog_two_two]

theorem calc_bits_succ_no_widen (L : Nat)
    (h : ¬ (is_power_of_two L = true ∧ 4 ≤ L)) :
    max 2 (Nat.clog 2 (L + 1)) = max 2 (Nat.clog 2 L) := by
  by_cases hL : L ≤ 3
  · have h1 : Nat.clog 2 (L + 1) ≤ 2 :=
      le_trans (Nat.clog_mono_right 2 (by omega)) (le_of_eq clog_two_four)
    have h2 : Nat.clog 2 L ≤ 2 :=
      le_trans (Nat.clog_mono_right 2 (by omega)) (le_of_eq clog_two_four)
    omega
  · push_neg at hL
    have h4 : 4 ≤ L := hL
    have hnp : ¬ is_power_of_two L = true := fun hp => h ⟨hp, h4⟩
    have hle : L ≤ 2 ^ Nat.clog 2 L := Nat.le_pow_clog (by norm_num) L
    have hne : L ≠ 2 ^ Nat.clog 2 L := fun he =>
      hnp ((is_power_of_two_iff L).mpr ⟨Nat.clog 2 L, he⟩)
    have hup : Nat.clog 2 (L + 1) ≤ Nat.clog 2 L :=
      le_trans (Nat.clog_mono_right 2 (by omega))
        (le_of_eq (Nat.clog_pow 2 _ (by norm_num)))
    have hlo : Nat.clog 2 L ≤ Nat.clog 2 (L + 1) := Nat.clog_mono_right 2 (by omega)
    rw [le_antisymm hup hlo]

theorem calc_bits_succ_widen (L : Nat) (hp : is_power_of_two L = true) (h4 : 4 ≤ L) :
    max 2 (Nat.clog 2 (L + 1)) = max 2 (Nat.clog 2 L) + 1 := by
  obtain ⟨k, rfl⟩ := (is_power_of_two_iff L).mp hp
  have hk : 2 ≤ k := by
    by_contra hk
    push_neg at hk
    interval_cases k <;> norm_num at h4
  have h1 : Nat.clog 2 (2 ^ k) = k := Nat.clog_pow 2 k (by norm_num)
  have h2 : Nat.clog 2 (2 ^ k + 1) = k + 1 := by
    have hup : Nat.clog 2 (2 ^ k + 1) ≤ k + 1 :=
      le_trans
        (Nat.clog_mono_right 2 (by rw [pow_succ]; have := Nat.two_pow_pos k; omega))
        (le_of_eq (Nat.clog_pow 2 (k + 1) (by norm_num)))
    have hlo : k < Nat.clog 2 (2 ^ k + 1) :=
      (Nat.pow_lt_iff_lt_clog (by norm_num)).mp (by omega)
    omega
  rw [h1, h2]
  omega

theorem length_set_block_index (ws : List Nat) (i v B m : Nat) :
    (Region.set_block_index ws i v B m).length = ws.length := by
  simp only [Region.set_block_index]
  split <;> simp [List.length_set]

theorem foldl_set_block_index_length (l : List Nat) (f : Nat → Nat) (B m : Nat)
    (init : List Nat) :
    (l.foldl (fun acc i => Region.set_block_index acc i (f i) B m) init).length =
      init.length := by
  induction l generalizing init with
  | nil => rfl
  | cons x xs ih =>
    simp only [List.foldl_cons]
    rw [ih, length_set_block_index]

theorem resize_block_states_spec (r : Region) (ob om nb nm : Nat) :
    (Region.resize_block_states r ob om nb nm).block_states.length =
        (Region.volume r * nb + 63) >>> Region.BIT_TO_LONG_SHIFT ∧
      (Region.resize_block_states r ob om nb nm).size = r.size ∧
      (Region.resize_block_states r ob om nb nm).block_state_palette =
        r.block_state_palette := by
  refine ⟨?_, rfl, rfl⟩
  simp only [Region.resize_block_states, Region.volume]
  rw [foldl_set_block_index_length, List.length_replicate]

theorem wf_set_block (r : Region) (c : Coordinates) (s : BlockState) (r' : Region)
    (hwf : Region.WF r) (h : Region.set_block r c s = .ok r') :
    Region.WF r' ∧ r'.size = r.size := by
  simp only [Region.WF, Region.volume] at hwf
  unfold Region.set_block at h
  cases hidx : Region.get_3d_index r c with
  | error e => rw [hidx] at h; exact absurd h (by simp)
  | ok index =>
    rw [hidx] at h
    dsimp only at h
    cases hfind : r.block_state_palette.findIdx? (fun b => decide (b = s)) with
    | some palette_index =>
      rw [hfind] at h
      dsimp only at h
      injection h with h2
      subst h2
      refine ⟨?_, rfl⟩
      simp only [Region.WF, Region.volume]
      rw [length_set_block_index]
      exact hwf
    | none =>
      rw [hfind] at h
      dsimp only at h
      split at h
      case isTrue hcond =>
        injection h with h2
        subst h2
        refine ⟨?_, rfl⟩
        set B := Region.calc_required_bits r.block_state_palette with hB
        obtain ⟨hlen, hsize, hpal⟩ :=
          resize_block_states_spec r B ((1 <<< B) - 1) (B + 1) ((1 <<< (B + 1)) - 1)
        have hcalc : Region.calc_required_bits (r.block_state_palette ++ [s]) = B + 1 := by
          rw [calc_required_bits_eq, hB, calc_required_bits_eq, List.length_append,
            List.length_singleton]
          exact calc_bits_succ_widen _ hcond.1 hcond.2
        simp only [Region.WF, Region.volume]
        rw [length_set_block_index, hlen, hpal, hcalc, hsize]
        simp only [Region.volume]
      case isFalse hcond =>
        injection h with h2
        subst h2
        refine ⟨?_, rfl⟩
        have hcalc : Region.calc_required_bits (r.block_state_palette ++ [s]) =
            Region.calc_required_bits r.block_state_palette := by
          rw [calc_required_bits_eq, calc_required_bits_eq, List.length_append,
            List.length_singleton]
          exact calc_bits_succ_no_widen _ hcond
        simp only [Region.WF, Region.volume]
        rw [length_set_block_index, hcalc]
        exact hwf

/-- C4: the well-formedness invariant.  First conjunct: the bits-per-cell
computed by `calc_required_bits` equals `max 2 (ceil_log2 (next_pow2 P))`
(with `Nat.clog 2` as ceiling log, so 2 for palette sizes 0..4, 3 for 5..8,
4 for 9..16, ...) and satisfies `P ≤ 2 ^ B`.  Second conjunct: `set_block`
(the only mutating codec operation) preserves the invariant that the packed
word array holds exactly `⌈V·B/64⌉` words. -/
theorem region_invariant_preserved :
    (∀ palette : List BlockState,
        Region.calc_required_bits palette = max 2 (Nat.clog 2 palette.length) ∧
          palette.length ≤ 2 ^ Region.calc_required_bits palette) ∧
      ∀ (r : Region) (c : Coordinates) (s : BlockState) (r' : Region),
        Region.WF r → Region.set_block r c s = .ok r' → Region.WF r' := by
  constructor
  · intro pal
    refine ⟨calc_required_bits_eq pal, ?_⟩
    rw [calc_required_bits_eq]
    calc pal.length ≤ 2 ^ Nat.clog 2 pal.length := Nat.le_pow_clog (by norm_num) _
      _ ≤ 2 ^ max 2 (Nat.clog 2 pal.length) :=
        Nat.pow_le_pow_right (by norm_num) (le_max_right _ _)
  · exact fun r c s r' hwf h => (wf_set_block r c s r' hwf h).1

theorem region_invariant_preserved_witness :
    Region.WF R0 ∧ Region.WF ⟨origin, ⟨1, 1, 1⟩, [b0, b1], [1]⟩ :=
  ⟨by decide,
    region_invariant_preserved.2 R0 origin b1 ⟨origin, ⟨1, 1, 1⟩, [b0, b1], [1]⟩
      (by decide) (by decide)⟩

theorem get_3d_index_lt_volume (r : Region) (c : Coordinates) (i : Nat)
    (h : Region.get_3d_index r c = .ok i) : i < Region.volume r := by
  unfold Region.get_3d_index at h
  split at h
  case isFalse => exact absurd h (by simp)
  case isTrue hb =>
    injection h with h2
    subst h2
    obtain ⟨hx0, hx, hy0, hy, hz0, hz⟩ := hb
    have hx1 : c.x.toNat < r.size.x.natAbs := by omega
    have hy1 : c.y.toNat < r.size.y.natAbs := by omega
    have hz1 : c.z.toNat < r.size.z.natAbs := by omega
    unfold Region.volume
    set sx := r.size.x.natAbs
    set sy := r.size.y.natAbs
    set sz := r.size.z.natAbs
    calc c.y.toNat * (sx * sz) + c.z.toNat * sx + c.x.toNat
        < c.y.toNat * (sx * sz) + (c.z.toNat * sx + sx) := by omega
      _ = c.y.toNat * (sx * sz) + (c.z.toNat + 1) * sx := by ring
      _ ≤ c.y.toNat * (sx * sz) + sz * sx := by
          have h1 : c.z.toNat + 1 ≤ sz := hz1
          have := Nat.mul_le_mul_right sx h1
          omega
      _ = (c.y.toNat + 1) * (sx * sz) := by ring
      _ ≤ sy * (sx * sz) := by
          have h1 : c.y.toNat + 1 ≤ sy := hy1
          exact Nat.mul_le_mul_right _ h1
      _ = sx * sy * sz := by ring

/-- C6: `set_block` succeeds exactly on in-bounds coordinates and `get_block`
fails with `outOfBounds` exactly on out-of-bounds coordinates (the `assert!`
in `get_3d_index` is the modelled `OutOfBounds` failure); moreover on a
well-formed region an in-bounds `set_block` returns a region, and the end
word index touched by the final packed write is within the array, so the
Rust indexing cannot panic. -/
theorem bounds_error_characterization :
    ∀ (r : Region) (c : Coordinates) (s : BlockState),
      ((Region.set_block r c s).isOk ↔ in_bounds r.size c) ∧
        (Region.get_block r c = .error RegionError.outOfBounds ↔ ¬ in_bounds r.size c) ∧
        (Region.WF r → in_bounds r.size c →
          ∃ r', Region.set_block r c s = .ok r' ∧
            ∀ i, Region.get_3d_index r c = .ok i →
              ((i + 1) * Region.calc_required_bits r'.block_state_palette - 1) >>>
                  Region.BIT_TO_LONG_SHIFT < r'.block_states.length) := by
  intro r c s
  refine ⟨?_, ?_, ?_⟩
  · by_cases hb : in_bounds r.size c
    · cases hfind : r.block_state_palette.findIdx? (fun b => decide (b = s)) with
      | some pi =>
        simp [Region.set_block, Region.get_3d_index, hb, hfind, Except.isOk,
          Except.toBool]
      | none =>
        by_cases hc : is_power_of_two r.block_state_palette.length ∧
            4 ≤ r.block_state_palette.length
        · simp [Region.set_block, Region.get_3d_index, hb, hfind, hc, Except.isOk,
            Except.toBool]
        · simp [Region.set_block, Region.get_3d_index, hb, hfind, hc, Except.isOk,
            Except.toBool]
    · simp [Region.set_block, Region.get_3d_index, hb, Except.isOk, Except.toBool]
  · by_cases hb : in_bounds r.size c
    · have hidx0 : Region.get_3d_index r c =
          .ok (c.y.toNat * (r.size.x.natAbs * r.size.z.natAbs) +
            c.z.toNat * r.size.x.natAbs + c.x.toNat) := by
        unfold Region.get_3d_index
        rw [if_pos hb]
      simp only [Region.get_block, hidx0, hb, not_true, iff_false]
      cases hget : r.block_state_palette.get?
          (Region.get_palette_index r.block_states
            (c.y.toNat * (r.size.x.natAbs * r.size.z.natAbs) +
              c.z.toNat * r.size.x.natAbs + c.x.toNat)
            (Region.calc_required_bits r.block_state_palette)
            ((1 <<< Region.calc_required_bits r.block_state_palette) - 1)) with
      | some b => simp [hget]
      | none => simp [hget]
    · simp [Region.get_block, Region.get_3d_index, hb]
  · intro hwf hb
    have hidx : Region.get_3d_index r c =
        .ok (c.y.toNat * (r.size.x.natAbs * r.size.z.natAbs) +
          c.z.toNat * r.size.x.natAbs + c.x.toNat) := by
      unfold Region.get_3d_index
      rw [if_pos hb]
    have hex : ∃ r', Region.set_block r c s = .ok r' := by
      unfold Region.set_block
      rw [hidx]
      dsimp only
      cases hfind : r.block_state_palette.findIdx? (fun b => decide (b = s)) with
      | some pi => exact ⟨_, rfl⟩
      | none =>
        dsimp only
        split
        · exact ⟨_, rfl⟩
        · exact ⟨_, rfl⟩
    obtain ⟨r', hr'⟩ := hex
    refine ⟨r', hr', ?_⟩
    intro i hi
    obtain ⟨hwf', hsize'⟩ := wf_set_block r c s r' hwf hr'
    have hiv : i < Region.volume r := get_3d_index_lt_volume r c i hi
    have hvol : Region.volume r' = Region.volume r := by
      unfold Region.volume
      rw [hsize']
    simp only [Region.WF] at hwf'
    rw [hwf', hvol]
    have hB2 : 2 ≤ Region.calc_required_bits r'.block_state_palette := by
      rw [calc_required_bits_eq]
      exact le_max_left _ _
    simp only [Region.BIT_TO_LONG_SHIFT]
    rw [Nat.shiftRight_eq_div_pow, Nat.shiftRight_eq_div_pow]
    have hle : (i + 1) * Region.calc_required_bits r'.block_state_palette ≤
        Region.volume r * Region.calc_required_bits r'.block_state_palette :=
      Nat.mul_le_mul_right _ (by omega)
    have hpos : 1 ≤ (i + 1) * Region.calc_required_bits r'.block_state_palette :=
      Nat.mul_pos (by omega) (by omega)
    revert hle hpos
    generalize (i + 1) * Region.calc_required_bits r'.block_state_palette = a
    generalize Region.volume r * Region.calc_required_bits r'.block_state_palette = b
    intro hle hpos
    have h64 : (2 : Nat) ^ 6 = 64 := by norm_num
    rw [h64]
    omega

theorem bounds_error_characterization_witness :
    (Region.WF R0 ∧ in_bounds R0.size origin) ∧
      ∃ r', Region.set_block R0 origin b1 = .ok r' ∧
        ∀ i, Region.get_3d_index R0 origin = .ok i →
          ((i + 1) * Region.calc_required_bits r'.block_state_palette - 1) >>>
              Region.BIT_TO_LONG_SHIFT < r'.block_states.length :=
  ⟨⟨by decide, by decide⟩,
    (bounds_error_characterization R0 origin b1).2.2 (by decide) (by decide)⟩

theorem filterMap_if {α β : Type _} (l : List α) (f : α → β) (q : β → Bool)
    (g : α → Option β) (hg : ∀ x ∈ l, g x = if q (f x) then some (f x) else none) :
    l.filterMap g = (l.map f).filter q := by
  induction l with
  | nil => rfl
  | cons x xs ih =>
    rw [List.filterMap_cons, List.map_cons, List.filter_cons,
      hg x (List.mem_cons_self x xs)]
    by_cases h : q (f x) <;>
      simp [h, ih (fun a ha => hg a (List.mem_cons_of_mem x ha))]

/-- C8 (spec-modelled: `find_positions` is absent from `src/`): the modelled
`find_positions` equals the y-major, then z, then x enumeration of all
coordinates filtered by whether the cell's BlockState satisfies the pattern,
and on the spec's seed scenario (size (3,2,3), single matching cell) it
yields exactly `[(2,1,2)]`. -/
theorem find_positions_spec :
    (∀ (r : Region) (pattern : BlockState → Bool),
        Region.find_positions r pattern =
          (Region.coord_enum r).filter (Region.cell_matches r pattern)) ∧
      Region.find_positions R4 (fun st => decide (st = b1)) = [⟨2, 1, 2⟩] := by
  constructor
  · intro r pattern
    unfold Region.find_positions Region.coord_enum
    rw [List.filter_flatMap]
    refine congrArg (List.flatMap _) (funext fun y => ?_)
    rw [List.filter_flatMap]
    refine congrArg (List.flatMap _) (funext fun z => ?_)
    refine filterMap_if _ (fun x => ⟨(x : Int), (y : Int), (z : Int)⟩)
      (Region.cell_matches r pattern) _ (fun x _ => ?_)
    unfold Region.cell_matches
    cases Region.get_block r ⟨(x : Int), (y : Int), (z : Int)⟩ <;> rfl
  · decide

theorem splitn2_no_colon (s : List Char) (h : ':' ∉ s) :
    ResourceLocation.splitn2 s = (s, none) := by
  induction s with
  | nil => rfl
  | cons c rest ih =>
    unfold ResourceLocation.splitn2
    rw [if_neg (fun he => h (by rw [← he]; exact List.mem_cons_self c rest))]
    rw [ih (fun hm => h (List.mem_cons_of_mem c hm))]

theorem splitn2_colon (a b : List Char) (h : ':' ∉ a) :
    ResourceLocation.splitn2 (a ++ ':' :: b) = (a, some b) := by
  induction a with
  | nil => simp [ResourceLocation.splitn2]
  | cons c rest ih =>
    rw [List.cons_append]
    unfold ResourceLocation.splitn2
    rw [if_neg (fun he => h (by rw [← he]; exact List.mem_cons_self c rest))]
    rw [ih (fun hm => h (List.mem_cons_of_mem c hm))]

/-- C9: `ResourceLocation::parse` splits at the first `':'` and validates the
namespace charset `[A-Za-z0-9_.-]` and path charset (same plus `'/'`), both
nonempty; without a `':'` the namespace defaults to `minecraft`; and the
spec's four examples evaluate as claimed. -/
theorem parse_characterization :
    (∀ a b : List Char, ':' ∉ a →
        ResourceLocation.parse (a ++ ':' :: b) =
          if ResourceLocation.is_valid_namespace a = true ∧
              ResourceLocation.is_valid_path b = true then
            .ok ⟨a, b⟩
          else .error .parseError) ∧
      (∀ s : List Char, ':' ∉ s →
        ResourceLocation.parse s =
          if ResourceLocation.is_valid_path s = true then
            .ok ⟨"minecraft".toList, s⟩
          else .error .parseError) ∧
      ResourceLocation.parse "stone".toList = .ok ⟨"minecraft".toList, "stone".toList⟩ ∧
      ResourceLocation.parse "create:mechanical_drill".toList =
        .ok ⟨"create".toList, "mechanical_drill".toList⟩ ∧
      ResourceLocation.parse "bad!:x".toList = .error .parseError ∧
      ResourceLocation.parse "ns:bad!".toList = .error .parseError := by
  refine ⟨?_, ?_, by decide, by decide, by decide, by decide⟩
  · intro a b h
    unfold ResourceLocation.parse
    rw [splitn2_colon a b h]
    by_cases h1 : ResourceLocation.is_valid_namespace a = true
    · by_cases h2 : ResourceLocation.is_valid_path b = true
      · simp [h1, h2]
      · simp [h1, h2]
    · simp [h1]
  · intro s h
    unfold ResourceLocation.parse
    rw [splitn2_no_colon s h]
    by_cases h1 : ResourceLocation.is_valid_path s = true
    · simp [h1]
    · simp [h1]

theorem parse_characterization_witness :
    ResourceLocation.parse ("create".toList ++ ':' :: "mechanical_drill".toList) =
      .ok ⟨"create".toList, "mechanical_drill".toList⟩ := by
  rw [parse_characterization.1 "create".toList "mechanical_drill".toList (by decide)]
  decide

/-- C7 (amended): `LitematicaFile::write` fails with the invalid-path error
exactly when the path has an extension and that extension is not
`litematic`; a path with no extension passes the check (this is where the
original claim fails, see `write_extension_counterexample`); `read` performs
no extension validation. -/
theorem write_extension_check_amended :
    (∀ path : List Char,
        LitematicaFile.write_ext_check path = .error FileError.invalidPath ↔
          ∃ e, LitematicaFile.extension path = some e ∧ e ≠ "litematic".toList) ∧
      ∀ path : List Char, LitematicaFile.read_ext_check path = .ok () := by
  constructor
  · intro path
    unfold LitematicaFile.write_ext_check
    cases hext : LitematicaFile.extension path with
    | none => simp
    | some e =>
      by_cases he : e = "litematic".toList
      · simp [he]
      · simp [he]
  · intro path
    rfl

/-- C7 counterexample: the claim as stated says every path whose extension is
not `.litematic` is rejected by `write`; the path `"test"` has no extension
(hence not a `.litematic` extension) yet passes the validation. -/
theorem write_extension_counterexample :
    LitematicaFile.extension "test".toList = none ∧
      LitematicaFile.write_ext_check "test".toList = .ok () := by
  exact ⟨by decide, by decide⟩

theorem write_extension_check_amended_witness :
    LitematicaFile.write_ext_check "foo.txt".toList = .error FileError.invalidPath :=
  (write_extension_check_amended.1 "foo.txt".toList).mpr
    ⟨"txt".toList, by decide, by decide⟩

/-- C10: the unexported codec in `src/parsing.rs` is extensionally equal to
the live one in `src/region.rs`: on identical region state (position, size,
palette, packed words), `get_block` returns the same result and `set_block`
produces the same palette and packed-word array. -/
theorem parsing_codec_equivalence :
    ∀ (position size : Coordinates) (palette : List BlockState) (words : List Nat)
      (c : Coordinates) (b : BlockState),
      (Parsing.Region.get_block ⟨position, size, words, palette⟩ c =
          Region.get_block ⟨position, size, palette, words⟩ c) ∧
        ((Parsing.Region.set_block ⟨position, size, words, palette⟩ c b).map
            (fun r => (r.block_state_palette, r.block_states)) =
          (Region.set_block ⟨position, size, palette, words⟩ c b).map
            (fun r => (r.block_state_palette, r.block_states))) := by
  intro position size palette words c b
  constructor
  · rfl
  · have hidx_eq : Parsing.Region.get_index ⟨position, size, words, palette⟩ c =
        Region.get_3d_index ⟨position, size, palette, words⟩ c := rfl
    unfold Parsing.Region.set_block Region.set_block
    rw [hidx_eq]
    cases hidx : Region.get_3d_index ⟨position, size, palette, words⟩ c with
    | error e => rfl
    | ok index =>
      dsimp only
      cases hfind : palette.findIdx? (fun x => decide (x = b)) with
      | some pi => rfl
      | none =>
        dsimp only
        by_cases hc : is_power_of_two palette.length ∧ 4 ≤ palette.length
        · rw [if_pos hc, if_pos hc]
          rfl
        · rw [if_neg hc, if_neg hc]
          rfl

/-- Witness for C5 at `B = 5`, cell 12 (bit position 60, straddling words 0
and 1), writing value 21 and checking bit 3 of the high word. -/
theorem straddle_write_high_word_frame_witness :
    ((1 : Nat) ≤ 5 ∧
        (12 * 5) >>> Region.BIT_TO_LONG_SHIFT ≠
          ((12 + 1) * 5 - 1) >>> Region.BIT_TO_LONG_SHIFT ∧
        ((12 + 1) * 5 - 1) >>> Region.BIT_TO_LONG_SHIFT <
          ([0, 12345] : List Nat).length ∧
        (3 : Nat) < 64 ∧ 5 - (64 - (12 * 5) % 64) ≤ 3) ∧
      Nat.testBit
          ((Region.set_block_index [0, 12345] 12 21 5 ((1 <<< 5) - 1)).getD
            (((12 + 1) * 5 - 1) >>> Region.BIT_TO_LONG_SHIFT) 0) 3 =
        Nat.testBit
          (([0, 12345] : List Nat).getD
            (((12 + 1) * 5 - 1) >>> Region.BIT_TO_LONG_SHIFT) 0) 3 :=
  ⟨⟨by decide, by decide, by decide, by decide, by decide⟩,
    straddle_write_high_word_frame [0, 12345] 12 21 5 3 (by decide) (by decide)
      (by decide) (by decide) (by decide)⟩
